import Mathlib

/-!
Shallow embedding of `fishhook.c`, the Mach-O symbol rebinding engine.

Memory is modelled as a single word-addressable map `Nat → Nat`: a pointer
slot at byte address `a` holds the word `mem a`, and a rebinding's
`replaced` out-location is an address into the same map (so aliasing
between a slot and an out-location is representable).  The unsupported
platform effects are parameters:
  * `malloc` success is a `Bool` per allocation site;
  * the `vm_region` query of `get_protection` is an `Option Nat`
    (`some p` for `KERN_SUCCESS` with protection `p`, `none` for failure);
  * `mprotect` invocations are recorded as an event trace rather than a
    protection state.
Symbol names and segment/section name fields are byte strings modelled as
`List Char`, with `'\x00'` playing the role of the C nul terminator.
-/

namespace Fishhook

/-- `INDIRECT_SYMBOL_LOCAL` from `<mach-o/loader.h>`. -/
def INDIRECT_SYMBOL_LOCAL : Nat := 0x80000000

/-- `INDIRECT_SYMBOL_ABS` from `<mach-o/loader.h>`. -/
def INDIRECT_SYMBOL_ABS : Nat := 0x40000000

/-- `SECTION_TYPE` mask from `<mach-o/loader.h>`. -/
def SECTION_TYPE : Nat := 0x000000ff

/-- `S_NON_LAZY_SYMBOL_POINTERS` section type. -/
def S_NON_LAZY_SYMBOL_POINTERS : Nat := 0x6

/-- `S_LAZY_SYMBOL_POINTERS` section type. -/
def S_LAZY_SYMBOL_POINTERS : Nat := 0x7

/-- Kernel-side protection bit `VM_PROT_READ`. -/
def VM_PROT_READ : Nat := 1

/-- Kernel-side protection bit `VM_PROT_WRITE`. -/
def VM_PROT_WRITE : Nat := 2

/-- Kernel-side protection bit `VM_PROT_EXECUTE`. -/
def VM_PROT_EXECUTE : Nat := 4

/-- `mprotect`-side protection bit `PROT_READ`. -/
def PROT_READ : Nat := 1

/-- `mprotect`-side protection bit `PROT_WRITE`. -/
def PROT_WRITE : Nat := 2

/-- `mprotect`-side protection bit `PROT_EXEC`. -/
def PROT_EXEC : Nat := 4

/-- Segment name `"__DATA"` (`SEG_DATA`). -/
def SEG_DATA : List Char := ("__DATA").toList

/-- Segment name `"__DATA_CONST"` (`SEG_DATA_CONST`). -/
def SEG_DATA_CONST : List Char := ("__DATA_CONST").toList

/-- Segment name `"__LINKEDIT"` (`SEG_LINKEDIT`). -/
def SEG_LINKEDIT : List Char := ("__LINKEDIT").toList

/-- `sizeof(void *)` on the `__LP64__` target. -/
def wordSize : Nat := 8

/-- `struct rebinding`: a caller-provided triple.  `replaced` is the
`void **original_slot` out-pointer, `none` standing for `NULL`; a `some a`
is the address of the out-location in the memory map. -/
structure Rebinding where
  name : List Char
  replacement : Nat
  replaced : Option Nat
deriving DecidableEq, Repr

/-- `struct rebindings_entry` minus the intrusive `next` pointer: one
registered batch, owning its copied vector. -/
structure RebindingsEntry where
  rebindings : List Rebinding
deriving DecidableEq, Repr

/-- The linked list of batches headed at `_rebindings_head`, most recent
first.  The empty list is the `NULL` head. -/
abbrev Registry := List RebindingsEntry

/-- `prepend_rebindings`: copy the caller's batch into a new node and push
it on the head.  `alloc1` is the success of the node `malloc`, `alloc2` of
the vector `malloc`; on either failure the head is returned unchanged and
the result is `-1`. -/
def prepend_rebindings (head : Registry) (rebindings : List Rebinding)
    (alloc1 alloc2 : Bool) : Int × Registry :=
  if !alloc1 then (-1, head)
  else if !alloc2 then (-1, head)
  else (0, ⟨rebindings⟩ :: head)

/-- `get_protection`: the `vm_region`/`vm_region_64` query result for the
queried address is abstracted as `vmQuery`; on `KERN_SUCCESS` the region's
protection is returned, otherwise `VM_PROT_READ`. -/
def get_protection (vmQuery : Option Nat) : Nat :=
  match vmQuery with
  | some p => p
  | none => VM_PROT_READ

/-- The fields of `section_t` (`struct section_64`) that the rebinder
reads. -/
structure SectionT where
  segname : List Char
  addr : Nat
  size : Nat
  reserved1 : Nat
  flags : Nat
deriving DecidableEq, Repr

/-- The three `__LINKEDIT` tables the walker hands to the section
rewriter: `symtab` maps a symbol-table index to its `n_un.n_strx` string
offset, `strtab` is the string-table byte blob, `indirect_symtab` maps an
indirect-table index to its `uint32_t` entry. -/
structure ImageTables where
  symtab : Nat → Nat
  strtab : List Char
  indirect_symtab : Nat → Nat

/-- Read the byte at `off` of the string table (out-of-range reads, which
are undefined behaviour of the image in C, read as nul). -/
def charAt (tab : List Char) (off : Nat) : Char :=
  tab.getD off '\x00'

/-- Read the nul-terminated C string starting at byte offset `off`. -/
def readCStr (tab : List Char) (off : Nat) : List Char :=
  (tab.drop off).takeWhile (fun c => decide (c ≠ '\x00'))

/-- `symbol_name[0] && symbol_name[1]` for the symbol name at offset
`off`. -/
def symbolNameLongerThan1 (strtab : List Char) (off : Nat) : Bool :=
  decide (charAt strtab off ≠ '\x00') && decide (charAt strtab (off + 1) ≠ '\x00')

/-- The per-rebinding test of the inner matching loop:
`symbol_name_longer_than_1 && strcmp(&symbol_name[1], cur->rebindings[j].name) == 0`. -/
def rebindingMatches (strtab : List Char) (off : Nat) (r : Rebinding) : Bool :=
  symbolNameLongerThan1 strtab off && decide (readCStr strtab (off + 1) = r.name)

/-- Byte address of pointer slot `i`: `&indirect_symbol_bindings[i]` where
`indirect_symbol_bindings = (void **)((uintptr_t)slide + section->addr)`. -/
def slotAddr (sec : SectionT) (slide : Nat) (i : Nat) : Nat :=
  slide + sec.addr + wordSize * i

/-- The sentinel test on an indirect-symbol-table entry. -/
def isSentinel (symtab_index : Nat) : Bool :=
  symtab_index == INDIRECT_SYMBOL_ABS || symtab_index == INDIRECT_SYMBOL_LOCAL ||
    symtab_index == (INDIRECT_SYMBOL_LOCAL ||| INDIRECT_SYMBOL_ABS)

/-- The registry in the order the nested `while cur` / `for j` loops visit
it: batches head first, entries of a batch in array order. -/
def flatRebindings (registry : Registry) : List Rebinding :=
  registry.foldr (fun e acc => e.rebindings ++ acc) []

/-- One iteration of the `for i` loop of `perform_rebinding_with_section`:
look up the indirect entry for slot `i`, skip sentinels, resolve the
symbol name, search the registry for the first match, and on a match
capture the old slot value into `replaced` (when non-`NULL` and the slot
does not already hold the replacement) and overwrite the slot.  The search
stops at the first match (the `goto symbol_loop`). -/
def processSlot (registry : Registry) (t : ImageTables) (sec : SectionT)
    (slide : Nat) (mem : Nat → Nat) (i : Nat) : Nat → Nat :=
  let symtab_index := t.indirect_symtab (sec.reserved1 + i)
  if isSentinel symtab_index then mem
  else
    let strtab_offset := t.symtab symtab_index
    match (flatRebindings registry).find? (rebindingMatches t.strtab strtab_offset) with
    | none => mem
    | some r =>
      let a := slotAddr sec slide i
      let mem1 : Nat → Nat :=
        match r.replaced with
        | some p => if mem a ≠ r.replacement then (fun x => if x = p then mem a else mem x) else mem
        | none => mem
      fun x => if x = slotAddr sec slide i then r.replacement else mem1 x

/-- One `mprotect(addr, len, prot)` invocation, recorded as an event. -/
structure MProtectCall where
  addr : Nat
  len : Nat
  prot : Nat
deriving DecidableEq, Repr

/-- The kernel-to-`mprotect` protection translation at the tail of
`perform_rebinding_with_section`. -/
def protTranslate (oldProtection : Nat) : Nat :=
  let p0 : Nat := 0
  let p1 := if oldProtection &&& VM_PROT_READ ≠ 0 then p0 ||| PROT_READ else p0
  let p2 := if oldProtection &&& VM_PROT_WRITE ≠ 0 then p1 ||| PROT_WRITE else p1
  if oldProtection &&& VM_PROT_EXECUTE ≠ 0 then p2 ||| PROT_EXEC else p2

/-- `perform_rebinding_with_section`.  `vmQuery` is the kernel's answer to
the `get_protection(rebindings)` query (made against the registry's heap
address).  Returns the new memory and the trace of `mprotect` calls. -/
def perform_rebinding_with_section (registry : Registry) (sec : SectionT)
    (slide : Nat) (t : ImageTables) (vmQuery : Option Nat) (mem : Nat → Nat) :
    (Nat → Nat) × List MProtectCall :=
  let isDataConst := decide (sec.segname = SEG_DATA_CONST)
  let oldProtection := if isDataConst then get_protection vmQuery else VM_PROT_READ
  let pre : List MProtectCall :=
    if isDataConst then [⟨slide + sec.addr, sec.size, PROT_READ ||| PROT_WRITE⟩] else []
  let mem1 := (List.range (sec.size / wordSize)).foldl (processSlot registry t sec slide) mem
  let post : List MProtectCall :=
    if isDataConst then [⟨slide + sec.addr, sec.size, protTranslate oldProtection⟩] else []
  (mem1, pre ++ post)

/-- The fields of `segment_command_t` (`struct segment_command_64`) the
walker reads. -/
structure SegmentCommand where
  segname : List Char
  vmaddr : Nat
  fileoff : Nat
  sections : List SectionT
deriving DecidableEq, Repr

/-- The fields of `struct symtab_command` the walker reads. -/
structure SymtabCommand where
  symoff : Nat
  stroff : Nat
deriving DecidableEq, Repr

/-- The fields of `struct dysymtab_command` the walker reads. -/
structure DysymtabCommand where
  indirectsymoff : Nat
  nindirectsyms : Nat
deriving DecidableEq, Repr

/-- One load command of the Mach-O load-command stream, discriminated the
way the walker's `cmd` dispatch does (`LC_SEGMENT_ARCH_DEPENDENT`,
`LC_SYMTAB`, `LC_DYSYMTAB`, anything else). -/
inductive LoadCommand where
  | segment (seg : SegmentCommand)
  | symtab (cmd : SymtabCommand)
  | dysymtab (cmd : DysymtabCommand)
  | other
deriving DecidableEq, Repr

/-- The three locals of the walker's first pass over the load commands. -/
structure ScanResult where
  linkedit_segment : Option SegmentCommand
  symtab_cmd : Option SymtabCommand
  dysymtab_cmd : Option DysymtabCommand
deriving DecidableEq, Repr

/-- One step of the first pass: a matching command overwrites the
corresponding local (so the last matching command in the stream wins). -/
def scanStep (acc : ScanResult) (c : LoadCommand) : ScanResult :=
  match c with
  | .segment seg =>
    if seg.segname = SEG_LINKEDIT then { acc with linkedit_segment := some seg } else acc
  | .symtab s => { acc with symtab_cmd := some s }
  | .dysymtab d => { acc with dysymtab_cmd := some d }
  | .other => acc

/-- The walker's first pass over the load commands. -/
def scanLoadCommands (cmds : List LoadCommand) : ScanResult :=
  cmds.foldl scanStep ⟨none, none, none⟩

/-- A loaded Mach-O image as the walker sees it.  `dladdrOk` is whether
`dladdr(header, &info)` succeeds.  The raw pointer derivation
`linkedit_base = slide + vmaddr - fileoff` and the casts of
`linkedit_base + {symoff, stroff, indirectsymoff}` are abstracted: the
tables those three pointers denote are carried in `tables`. -/
structure MachImage where
  dladdrOk : Bool
  commands : List LoadCommand
  tables : ImageTables

/-- The observable outcome of one image walk: the final memory, the
`mprotect` trace, and the sections passed to
`perform_rebinding_with_section`, in invocation order. -/
structure WalkOut where
  mem : Nat → Nat
  mprotects : List MProtectCall
  performed : List SectionT

/-- The per-section body of the walker's second pass: dispatch to the
section rewriter when the section type is lazy or non-lazy symbol
pointers. -/
def walkSection (registry : Registry) (t : ImageTables) (slide : Nat)
    (vmQuery : Option Nat) (acc : WalkOut) (sect : SectionT) : WalkOut :=
  let section_type := sect.flags &&& SECTION_TYPE
  if section_type = S_LAZY_SYMBOL_POINTERS ∨ section_type = S_NON_LAZY_SYMBOL_POINTERS then
    let out := perform_rebinding_with_section registry sect slide t vmQuery acc.mem
    ⟨out.1, acc.mprotects ++ out.2, acc.performed ++ [sect]⟩
  else acc

/-- The per-command body of the walker's second pass: segment commands not
named `__DATA` or `__DATA_CONST` are `continue`d over; otherwise the
segment's sections are iterated. -/
def walkCommand (registry : Registry) (t : ImageTables) (slide : Nat)
    (vmQuery : Option Nat) (acc : WalkOut) (c : LoadCommand) : WalkOut :=
  match c with
  | .segment seg =>
    if seg.segname ≠ SEG_DATA ∧ seg.segname ≠ SEG_DATA_CONST then acc
    else seg.sections.foldl (walkSection registry t slide vmQuery) acc
  | _ => acc

/-- `rebind_symbols_for_image`: bail out when `dladdr` fails, when any of
the `__LINKEDIT` segment, symtab command, or dysymtab command is missing,
or when there are no indirect symbols; otherwise run the second pass. -/
def rebind_symbols_for_image (registry : Registry) (img : MachImage)
    (slide : Nat) (vmQuery : Option Nat) (mem : Nat → Nat) : WalkOut :=
  if !img.dladdrOk then ⟨mem, [], []⟩
  else
    let scan := scanLoadCommands img.commands
    match scan.symtab_cmd, scan.dysymtab_cmd, scan.linkedit_segment with
    | some _, some dys, some _ =>
      if dys.nindirectsyms = 0 then ⟨mem, [], []⟩
      else img.commands.foldl (walkCommand registry img.tables slide vmQuery) ⟨mem, [], []⟩
    | _, _, _ => ⟨mem, [], []⟩

/-- One entry of the loader's image list: `(_dyld_get_image_header(i),
_dyld_get_image_vmaddr_slide(i))`. -/
structure LoadedImage where
  image : MachImage
  slide : Nat

/-- The process-wide state the entry points touch: the global registry
head `_rebindings_head`, whether the add-image callback has been
registered, the loader's current image list, the memory, and the kernel's
protection-query answer. -/
structure World where
  rebindings_head : Registry
  callbackInstalled : Bool
  images : List LoadedImage
  mem : Nat → Nat
  vmQuery : Option Nat

/-- The observable outcome of one entry-point call: the `int` return
value, the final world, the `mprotect` trace, and the images the walker
was run against, in order. -/
structure CallResult where
  retval : Int
  world : World
  mprotects : List MProtectCall
  walked : List LoadedImage

/-- Run `_rebind_symbols_for_image` (the walker with registry `registry`)
over every currently-loaded image in list order, threading memory. -/
def walkAllImages (registry : Registry) (w : World) :
    World × List MProtectCall × List LoadedImage :=
  w.images.foldl
    (fun (acc : World × List MProtectCall × List LoadedImage) li =>
      let out := rebind_symbols_for_image registry li.image li.slide acc.1.vmQuery acc.1.mem
      ({ acc.1 with mem := out.mem }, acc.2.1 ++ out.mprotects, acc.2.2 ++ [li]))
    (w, [], [])

/-- `rebind_symbols`: prepend the batch onto the global head; on
allocation failure return the negative code with nothing else done.  On
the first registration install the add-image callback (which the loader
then fires once per already-loaded image, each invocation using the
current global head); on later registrations enumerate the loader's image
list and walk each image with the full registry. -/
def rebind_symbols (w : World) (rebindings : List Rebinding)
    (alloc1 alloc2 : Bool) : CallResult :=
  let pr := prepend_rebindings w.rebindings_head rebindings alloc1 alloc2
  if pr.1 < 0 then ⟨pr.1, w, [], []⟩
  else
    let w1 := { w with rebindings_head := pr.2 }
    if pr.2.tail.isEmpty then
      let w2 := { w1 with callbackInstalled := true }
      let out := walkAllImages w2.rebindings_head w2
      ⟨pr.1, out.1, out.2.1, out.2.2⟩
    else
      let out := walkAllImages w1.rebindings_head w1
      ⟨pr.1, out.1, out.2.1, out.2.2⟩

/-- `rebind_symbols_image`: build a transient registry from a `NULL` local
head, run the walker against exactly the given image with it (even when
the transient registry is empty because allocation failed), free the
transient node, and return the `prepend_rebindings` result. -/
def rebind_symbols_image (w : World) (img : LoadedImage)
    (rebindings : List Rebinding) (alloc1 alloc2 : Bool) : CallResult :=
  let pr := prepend_rebindings [] rebindings alloc1 alloc2
  let out := rebind_symbols_for_image pr.2 img.image img.slide w.vmQuery w.mem
  ⟨pr.1, { w with mem := out.mem }, out.mprotects, [img]⟩

theorem flatRebindings_entry_cons (b : List Rebinding) (reg : Registry) :
    flatRebindings (⟨b⟩ :: reg) = b ++ flatRebindings reg := rfl

theorem find?_append_left {α : Type} {p : α → Bool} {l1 l2 : List α} {r : α}
    (h : l1.find? p = some r) : (l1 ++ l2).find? p = some r := by
  rw [List.find?_append, h]
  rfl

theorem readCStr_ne_nil (tab : List Char) (off : Nat)
    (h : charAt tab off ≠ '\x00') : readCStr tab off ≠ [] := by
  unfold readCStr
  unfold charAt at h
  cases hd : tab.drop off with
  | nil =>
    exact absurd (List.getD_eq_default _ _ (List.drop_eq_nil_iff.mp hd)) h
  | cons c cs =>
    have hget : tab[off]? = some c := by
      rw [← List.head?_drop, hd]
      rfl
    have hcat : tab.getD off '\x00' = c := by
      simp [List.getD_eq_getElem?_getD, hget]
    have hcne : c ≠ '\x00' := hcat ▸ h
    rw [List.takeWhile_cons_of_pos (by simpa using hcne)]
    simp

theorem rebindingMatches_empty_name (strtab : List Char) (off : Nat)
    (r : Rebinding) (h : r.name = []) : rebindingMatches strtab off r = false := by
  unfold rebindingMatches symbolNameLongerThan1
  by_cases h1 : charAt strtab (off + 1) = '\x00'
  · simp [h1]
  · have h2 := readCStr_ne_nil strtab (off + 1) h1
    simp [h, h2]

theorem processSlot_match (registry : Registry) (t : ImageTables)
    (sec : SectionT) (slide : Nat) (mem : Nat → Nat) (i : Nat) (r : Rebinding)
    (hsent : isSentinel (t.indirect_symtab (sec.reserved1 + i)) = false)
    (hfind : (flatRebindings registry).find? (rebindingMatches t.strtab
        (t.symtab (t.indirect_symtab (sec.reserved1 + i)))) = some r) :
    processSlot registry t sec slide mem i (slotAddr sec slide i) =
      r.replacement := by
  unfold processSlot
  simp only [hsent, Bool.false_eq_true, if_false, hfind]
  simp

/-- C1: for any registry, a matched slot receives the replacement of the
first matching rebinding in head-to-tail traversal order (batches most
recent first, entries of a batch in array order) — the search stops at
that first match, wherever in the registry it lies; and consequently,
after a later registration prepends a batch `b2`, the first match inside
`b2` wins over every match in the older registry, so the later
registration's replacement is installed. -/
theorem first_match_wins (registry : Registry) (t : ImageTables)
    (sec : SectionT) (slide : Nat) (mem : Nat → Nat) (i : Nat) (r : Rebinding)
    (hsent : isSentinel (t.indirect_symtab (sec.reserved1 + i)) = false)
    (hfind : (flatRebindings registry).find? (rebindingMatches t.strtab
        (t.symtab (t.indirect_symtab (sec.reserved1 + i)))) = some r) :
    processSlot registry t sec slide mem i (slotAddr sec slide i) =
      r.replacement ∧
    ∀ b2 r2, b2.find? (rebindingMatches t.strtab
        (t.symtab (t.indirect_symtab (sec.reserved1 + i)))) = some r2 →
      processSlot (prepend_rebindings registry b2 true true).2 t sec slide mem i
        (slotAddr sec slide i) = r2.replacement := by
  constructor
  · exact processSlot_match registry t sec slide mem i r hsent hfind
  · intro b2 r2 hfind2
    rw [show (prepend_rebindings registry b2 true true).2 = ⟨b2⟩ :: registry
      from rfl]
    apply processSlot_match (⟨b2⟩ :: registry) t sec slide mem i r2 hsent
    rw [flatRebindings_entry_cons]
    exact find?_append_left hfind2

/-- C2: for a matched slot, when the slot does not already hold the
replacement and `replaced` is a non-null out-location distinct from the
slot itself, the pre-rewrite slot value is stored into the out-location;
when the slot already holds the replacement, memory (in particular the
out-location) is left entirely unchanged apart from the slot's trivial
re-write of the same value. -/
theorem original_capture_idempotent (registry : Registry) (t : ImageTables)
    (sec : SectionT) (slide : Nat) (mem : Nat → Nat) (i : Nat) (r : Rebinding)
    (hsent : isSentinel (t.indirect_symtab (sec.reserved1 + i)) = false)
    (hfind : (flatRebindings registry).find? (rebindingMatches t.strtab
        (t.symtab (t.indirect_symtab (sec.reserved1 + i)))) = some r) :
    (∀ p, r.replaced = some p → p ≠ slotAddr sec slide i →
        mem (slotAddr sec slide i) ≠ r.replacement →
        processSlot registry t sec slide mem i p = mem (slotAddr sec slide i)) ∧
    (mem (slotAddr sec slide i) = r.replacement →
        ∀ a, processSlot registry t sec slide mem i a = mem a) := by
  constructor
  · intro p hp hne hval
    unfold processSlot
    simp only [hsent, Bool.false_eq_true, if_false, hfind, hp]
    rw [if_neg hne, if_pos hval]
    simp
  · intro hval a
    unfold processSlot
    simp only [hsent, Bool.false_eq_true, if_false, hfind]
    cases hrep : r.replaced with
    | none =>
      by_cases ha : a = slotAddr sec slide i
      · simp [ha, ← hval]
      · simp [ha]
    | some p =>
      by_cases ha : a = slotAddr sec slide i
      · simp [ha, hval]
      · simp [ha, hval]

/-- C3: a slot whose indirect-symbol-table entry is `INDIRECT_SYMBOL_ABS`,
`INDIRECT_SYMBOL_LOCAL`, or their bitwise-or is skipped outright: memory
is left unchanged (no rewrite, no capture), whatever the registry. -/
theorem sentinel_skip (registry : Registry) (t : ImageTables) (sec : SectionT)
    (slide : Nat) (mem : Nat → Nat) (i : Nat)
    (h : t.indirect_symtab (sec.reserved1 + i) = INDIRECT_SYMBOL_ABS ∨
         t.indirect_symtab (sec.reserved1 + i) = INDIRECT_SYMBOL_LOCAL ∨
         t.indirect_symtab (sec.reserved1 + i) =
           (INDIRECT_SYMBOL_LOCAL ||| INDIRECT_SYMBOL_ABS)) :
    processSlot registry t sec slide mem i = mem := by
  have hs : isSentinel (t.indirect_symtab (sec.reserved1 + i)) = true := by
    rcases h with h | h | h <;> simp only [isSentinel, h] <;> decide
  unfold processSlot
  simp [hs]

/-- C4: against a single registered rebinding, the slot is rewritten to
the replacement exactly when the stored symbol name has non-zero first and
second bytes and its suffix past the leading underscore equals the
registered name byte-wise; and a registered empty name never matches, so
it leaves memory unchanged. -/
theorem name_match_discipline (r : Rebinding) (t : ImageTables) (sec : SectionT)
    (slide : Nat) (mem : Nat → Nat) (i : Nat) (off : Nat)
    (hsent : isSentinel (t.indirect_symtab (sec.reserved1 + i)) = false)
    (hoff : t.symtab (t.indirect_symtab (sec.reserved1 + i)) = off) :
    (processSlot [⟨[r]⟩] t sec slide mem i (slotAddr sec slide i) =
       if charAt t.strtab off ≠ '\x00' ∧ charAt t.strtab (off + 1) ≠ '\x00' ∧
          readCStr t.strtab (off + 1) = r.name
       then r.replacement else mem (slotAddr sec slide i)) ∧
    (r.name = [] → processSlot [⟨[r]⟩] t sec slide mem i = mem) := by
  have hflat : flatRebindings [(⟨[r]⟩ : RebindingsEntry)] = [r] := rfl
  constructor
  · unfold processSlot
    simp only [hsent, Bool.false_eq_true, if_false, hoff, hflat]
    by_cases hc : charAt t.strtab off ≠ '\x00' ∧ charAt t.strtab (off + 1) ≠ '\x00' ∧
        readCStr t.strtab (off + 1) = r.name
    · have hm : rebindingMatches t.strtab off r = true := by
        unfold rebindingMatches symbolNameLongerThan1
        simp [hc.1, hc.2.1, hc.2.2]
      rw [List.find?_cons_of_pos _ hm]
      simp [hc]
    · have hm : rebindingMatches t.strtab off r = false := by
        rcases Bool.eq_false_or_eq_true (rebindingMatches t.strtab off r) with hm | hm
        · exfalso
          apply hc
          unfold rebindingMatches symbolNameLongerThan1 at hm
          simp only [Bool.and_eq_true, decide_eq_true_eq] at hm
          exact ⟨hm.1.1, hm.1.2, hm.2⟩
        · exact hm
      rw [List.find?_cons_of_neg _ (by simp [hm])]
      simp [List.find?_nil, hc]
  · intro hname
    have hm := rebindingMatches_empty_name t.strtab off r hname
    unfold processSlot
    simp only [hsent, Bool.false_eq_true, if_false, hoff, hflat]
    rw [List.find?_cons_of_neg _ (by simp [hm])]
    simp [List.find?_nil]

/-- Image tables used by the concrete witnesses: every indirect entry
resolves to symbol-table index 0, whose name in the string table is
`"_foo"`. -/
def wTables : ImageTables := ⟨fun _ => 0, ("_foo").toList, fun _ => 0⟩

/-- A concrete lazy-symbol-pointer section in `__DATA`, used by the
witnesses. -/
def wSection : SectionT := ⟨("__DATA").toList, 0, 16, 0, 7⟩

theorem first_match_wins_witness :
    processSlot [⟨[⟨("bar").toList, 5, none⟩]⟩, ⟨[⟨("foo").toList, 7, none⟩]⟩]
      wTables wSection 0 (fun _ => 0) 0 (slotAddr wSection 0 0) = 7 ∧
    processSlot (prepend_rebindings
        [⟨[⟨("bar").toList, 5, none⟩]⟩, ⟨[⟨("foo").toList, 7, none⟩]⟩]
        [⟨("foo").toList, 42, none⟩] true true).2 wTables wSection 0
      (fun _ => 0) 0 (slotAddr wSection 0 0) = 42 :=
  ⟨(first_match_wins
      [⟨[⟨("bar").toList, 5, none⟩]⟩, ⟨[⟨("foo").toList, 7, none⟩]⟩]
      wTables wSection 0 (fun _ => 0) 0 ⟨("foo").toList, 7, none⟩
      (by decide) (by decide)).1,
   (first_match_wins
      [⟨[⟨("bar").toList, 5, none⟩]⟩, ⟨[⟨("foo").toList, 7, none⟩]⟩]
      wTables wSection 0 (fun _ => 0) 0 ⟨("foo").toList, 7, none⟩
      (by decide) (by decide)).2
     [⟨("foo").toList, 42, none⟩] ⟨("foo").toList, 42, none⟩ (by decide)⟩

theorem original_capture_idempotent_witness :
    processSlot [⟨[⟨("foo").toList, 42, some 1000⟩]⟩] wTables wSection 0
      (fun _ => 0) 0 1000 = 0 :=
  (original_capture_idempotent [⟨[⟨("foo").toList, 42, some 1000⟩]⟩] wTables
      wSection 0 (fun _ => 0) 0 ⟨("foo").toList, 42, some 1000⟩
      (by decide) (by decide)).1 1000 rfl (by decide) (by decide)

theorem sentinel_skip_witness :
    processSlot [⟨[⟨("foo").toList, 42, none⟩]⟩]
      ⟨fun _ => 0, ("_foo").toList, fun _ => 0x40000000⟩ wSection 0
      (fun _ => 0) 0 = (fun _ => 0) :=
  sentinel_skip _ _ _ _ _ _ (Or.inl (by decide))

theorem name_match_discipline_witness :
    processSlot [⟨[⟨("foo").toList, 42, none⟩]⟩] wTables wSection 0
      (fun _ => 0) 0 (slotAddr wSection 0 0) = 42 :=
  ((name_match_discipline ⟨("foo").toList, 42, none⟩ wTables wSection 0
      (fun _ => 0) 0 0 (by decide) (by decide)).1).trans (by decide)

theorem foldl_scanStep_linkedit_none (cmds : List LoadCommand) (acc : ScanResult)
    (hacc : acc.linkedit_segment = none)
    (h : ∀ c ∈ cmds, ∀ seg, c = LoadCommand.segment seg → seg.segname ≠ SEG_LINKEDIT) :
    (cmds.foldl scanStep acc).linkedit_segment = none := by
  induction cmds generalizing acc with
  | nil => simpa using hacc
  | cons c cs ih =>
    rw [List.foldl_cons]
    apply ih
    · cases c with
      | segment seg =>
        have hne : seg.segname ≠ SEG_LINKEDIT := h _ (by simp) seg rfl
        simp [scanStep, hne, hacc]
      | symtab s => simpa [scanStep] using hacc
      | dysymtab d => simpa [scanStep] using hacc
      | other => simpa [scanStep] using hacc
    · intro c' hc' seg hseg
      exact h c' (by simp [hc']) seg hseg

theorem foldl_scanStep_symtab_none (cmds : List LoadCommand) (acc : ScanResult)
    (hacc : acc.symtab_cmd = none)
    (h : ∀ c ∈ cmds, ∀ s, c ≠ LoadCommand.symtab s) :
    (cmds.foldl scanStep acc).symtab_cmd = none := by
  induction cmds generalizing acc with
  | nil => simpa using hacc
  | cons c cs ih =>
    rw [List.foldl_cons]
    apply ih
    · cases c with
      | segment seg =>
        by_cases hseg : seg.segname = SEG_LINKEDIT <;> simp [scanStep, hseg, hacc]
      | symtab s => exact absurd rfl (h _ (by simp) s)
      | dysymtab d => simpa [scanStep] using hacc
      | other => simpa [scanStep] using hacc
    · intro c' hc' s
      exact h c' (by simp [hc']) s

theorem foldl_scanStep_dysymtab_none (cmds : List LoadCommand) (acc : ScanResult)
    (hacc : acc.dysymtab_cmd = none)
    (h : ∀ c ∈ cmds, ∀ d, c ≠ LoadCommand.dysymtab d) :
    (cmds.foldl scanStep acc).dysymtab_cmd = none := by
  induction cmds generalizing acc with
  | nil => simpa using hacc
  | cons c cs ih =>
    rw [List.foldl_cons]
    apply ih
    · cases c with
      | segment seg =>
        by_cases hseg : seg.segname = SEG_LINKEDIT <;> simp [scanStep, hseg, hacc]
      | symtab s => simpa [scanStep] using hacc
      | dysymtab d => exact absurd rfl (h _ (by simp) d)
      | other => simpa [scanStep] using hacc
    · intro c' hc' d
      exact h c' (by simp [hc']) d

/-- C7: the walker mutates nothing and emits nothing when `dladdr` fails
on the header, or when the load-command stream lacks a `__LINKEDIT`
segment command, a symtab command, or a dysymtab command, or when the
(last) dysymtab command reports zero indirect symbols. -/
theorem walker_skips (registry : Registry) (img : MachImage) (slide : Nat)
    (vmQuery : Option Nat) (mem : Nat → Nat)
    (h : img.dladdrOk = false ∨
         (∀ c ∈ img.commands, ∀ seg, c = LoadCommand.segment seg →
            seg.segname ≠ SEG_LINKEDIT) ∨
         (∀ c ∈ img.commands, ∀ s, c ≠ LoadCommand.symtab s) ∨
         (∀ c ∈ img.commands, ∀ d, c ≠ LoadCommand.dysymtab d) ∨
         (∃ d, (scanLoadCommands img.commands).dysymtab_cmd = some d ∧
            d.nindirectsyms = 0)) :
    rebind_symbols_for_image registry img slide vmQuery mem = ⟨mem, [], []⟩ := by
  cases hok : img.dladdrOk with
  | false =>
    unfold rebind_symbols_for_image
    rw [hok]
    rfl
  | true =>
    unfold rebind_symbols_for_image
    rw [hok]
    rcases h with h | h | h | h | h
    · rw [hok] at h
      exact absurd h (by simp)
    · have hn := foldl_scanStep_linkedit_none img.commands ⟨none, none, none⟩ rfl h
      cases h1 : (scanLoadCommands img.commands).symtab_cmd <;>
        cases h2 : (scanLoadCommands img.commands).dysymtab_cmd <;>
          simp_all [scanLoadCommands]
    · have hn := foldl_scanStep_symtab_none img.commands ⟨none, none, none⟩ rfl h
      cases h2 : (scanLoadCommands img.commands).dysymtab_cmd <;>
        cases h3 : (scanLoadCommands img.commands).linkedit_segment <;>
          simp_all [scanLoadCommands]
    · have hn := foldl_scanStep_dysymtab_none img.commands ⟨none, none, none⟩ rfl h
      cases h1 : (scanLoadCommands img.commands).symtab_cmd <;>
        cases h3 : (scanLoadCommands img.commands).linkedit_segment <;>
          simp_all [scanLoadCommands]
    · obtain ⟨d, hd, hz⟩ := h
      cases h1 : (scanLoadCommands img.commands).symtab_cmd <;>
        cases h3 : (scanLoadCommands img.commands).linkedit_segment <;>
          simp_all [hz]

theorem walker_skips_witness :
    rebind_symbols_for_image [] ⟨false, [], wTables⟩ 0 none (fun _ => 0) =
      ⟨(fun _ => 0), [], []⟩ :=
  walker_skips [] ⟨false, [], wTables⟩ 0 none (fun _ => 0) (Or.inl rfl)

/-- C8: after the rewriter finishes a `__DATA_CONST` section, the
protection applied to the section's range is exactly the kernel-side
protection observed by the pre-rewrite query (defaulting to read-only when
the query fails) translated into `mprotect`-side bits; the full trace is
the read-write bracket followed by that restoration. -/
theorem protection_restoration (registry : Registry) (sec : SectionT)
    (slide : Nat) (t : ImageTables) (vmQuery : Option Nat) (mem : Nat → Nat)
    (h : sec.segname = SEG_DATA_CONST) :
    (perform_rebinding_with_section registry sec slide t vmQuery mem).2 =
      [⟨slide + sec.addr, sec.size, PROT_READ ||| PROT_WRITE⟩,
       ⟨slide + sec.addr, sec.size, protTranslate (get_protection vmQuery)⟩] := by
  unfold perform_rebinding_with_section
  simp [h]

theorem protection_restoration_witness :
    (perform_rebinding_with_section [] ⟨("__DATA_CONST").toList, 0, 8, 0, 7⟩ 0
        wTables (some 5) (fun _ => 0)).2 =
      [⟨0 + 0, 8, PROT_READ ||| PROT_WRITE⟩,
       ⟨0 + 0, 8, protTranslate (get_protection (some 5))⟩] :=
  protection_restoration [] ⟨("__DATA_CONST").toList, 0, 8, 0, 7⟩ 0 wTables
    (some 5) (fun _ => 0) rfl

/-- C9: `rebind_symbols_image` works against a transient registry that is
never linked into the global list: the global head, the installed-callback
flag and the loader's image list are unchanged, and the walker is run
against exactly the given image. -/
theorem register_local_frame (w : World) (img : LoadedImage)
    (rbs : List Rebinding) (alloc1 alloc2 : Bool) :
    (rebind_symbols_image w img rbs alloc1 alloc2).world.rebindings_head =
        w.rebindings_head ∧
    (rebind_symbols_image w img rbs alloc1 alloc2).world.callbackInstalled =
        w.callbackInstalled ∧
    (rebind_symbols_image w img rbs alloc1 alloc2).world.images = w.images ∧
    (rebind_symbols_image w img rbs alloc1 alloc2).walked = [img] :=
  ⟨rfl, rfl, rfl, rfl⟩

theorem processSlot_nil_registry (t : ImageTables) (sec : SectionT)
    (slide : Nat) (mem : Nat → Nat) (i : Nat) :
    processSlot [] t sec slide mem i = mem := by
  unfold processSlot
  cases hs : isSentinel (t.indirect_symtab (sec.reserved1 + i)) <;>
    simp [hs, flatRebindings]

theorem foldl_processSlot_nil (l : List Nat) (t : ImageTables) (sec : SectionT)
    (slide : Nat) (mem : Nat → Nat) :
    l.foldl (processSlot [] t sec slide) mem = mem := by
  induction l generalizing mem with
  | nil => rfl
  | cons x xs ih => rw [List.foldl_cons, processSlot_nil_registry]; exact ih _

theorem perform_nil_registry (sec : SectionT) (slide : Nat) (t : ImageTables)
    (vmQuery : Option Nat) (mem : Nat → Nat) :
    (perform_rebinding_with_section [] sec slide t vmQuery mem).1 = mem := by
  unfold perform_rebinding_with_section
  simp [foldl_processSlot_nil]

theorem walkSection_nil_mem (t : ImageTables) (slide : Nat)
    (vmQuery : Option Nat) (acc : WalkOut) (sect : SectionT) :
    (walkSection [] t slide vmQuery acc sect).mem = acc.mem := by
  unfold walkSection
  by_cases hcond : sect.flags &&& SECTION_TYPE = S_LAZY_SYMBOL_POINTERS ∨
      sect.flags &&& SECTION_TYPE = S_NON_LAZY_SYMBOL_POINTERS
  · simp [hcond, perform_nil_registry]
  · simp [hcond]

theorem foldl_walkSection_nil_mem (sects : List SectionT) (t : ImageTables)
    (slide : Nat) (vmQuery : Option Nat) (acc : WalkOut) :
    (sects.foldl (walkSection [] t slide vmQuery) acc).mem = acc.mem := by
  induction sects generalizing acc with
  | nil => rfl
  | cons s ss ih => rw [List.foldl_cons, ih, walkSection_nil_mem]

theorem walkCommand_nil_mem (t : ImageTables) (slide : Nat)
    (vmQuery : Option Nat) (acc : WalkOut) (c : LoadCommand) :
    (walkCommand [] t slide vmQuery acc c).mem = acc.mem := by
  unfold walkCommand
  cases c with
  | segment seg =>
    by_cases hname : seg.segname ≠ SEG_DATA ∧ seg.segname ≠ SEG_DATA_CONST
    · simp [hname]
    · simp [hname, foldl_walkSection_nil_mem]
  | symtab s => rfl
  | dysymtab d => rfl
  | other => rfl

theorem foldl_walkCommand_nil_mem (cmds : List LoadCommand) (t : ImageTables)
    (slide : Nat) (vmQuery : Option Nat) (acc : WalkOut) :
    (cmds.foldl (walkCommand [] t slide vmQuery) acc).mem = acc.mem := by
  induction cmds generalizing acc with
  | nil => rfl
  | cons c cs ih => rw [List.foldl_cons, ih, walkCommand_nil_mem]

theorem rebind_symbols_for_image_nil_mem (img : MachImage) (slide : Nat)
    (vmQuery : Option Nat) (mem : Nat → Nat) :
    (rebind_symbols_for_image [] img slide vmQuery mem).mem = mem := by
  unfold rebind_symbols_for_image
  cases hok : img.dladdrOk with
  | false => rfl
  | true =>
    cases h1 : (scanLoadCommands img.commands).symtab_cmd <;>
      cases h2 : (scanLoadCommands img.commands).dysymtab_cmd <;>
        cases h3 : (scanLoadCommands img.commands).linkedit_segment <;>
          simp only [h1, h2, h3, Bool.not_true, Bool.false_eq_true, if_false]
    all_goals
      first
        | rfl
        | (split
           · rfl
           · exact foldl_walkCommand_nil_mem _ _ _ _ _)

/-- C10: when allocation fails inside `rebind_symbols_image`, the image
walk still runs but against the empty (null) transient registry, so no
memory location (slot or out-location) is written, and the negative
allocation-failure code is returned regardless of any matching. -/
theorem register_local_alloc_failure (w : World) (img : LoadedImage)
    (rbs : List Rebinding) (alloc1 alloc2 : Bool)
    (h : alloc1 = false ∨ alloc2 = false) :
    (rebind_symbols_image w img rbs alloc1 alloc2).retval = -1 ∧
    ∀ a, (rebind_symbols_image w img rbs alloc1 alloc2).world.mem a = w.mem a := by
  have hpr : prepend_rebindings [] rbs alloc1 alloc2 = (-1, []) := by
    rcases h with h | h <;> subst h
    · rfl
    · cases alloc1 <;> rfl
  constructor
  · unfold rebind_symbols_image
    rw [hpr]
  · intro a
    unfold rebind_symbols_image
    rw [hpr]
    simp [rebind_symbols_for_image_nil_mem]

theorem register_local_alloc_failure_witness :
    (rebind_symbols_image ⟨[], false, [], fun _ => 0, none⟩
        ⟨⟨true, [], wTables⟩, 0⟩ [] false false).retval = -1 ∧
    (rebind_symbols_image ⟨[], false, [], fun _ => 0, none⟩
        ⟨⟨true, [], wTables⟩, 0⟩ [] false false).world.mem 3 = 0 :=
  ⟨(register_local_alloc_failure ⟨[], false, [], fun _ => 0, none⟩
      ⟨⟨true, [], wTables⟩, 0⟩ [] false false (Or.inl rfl)).1,
   ((register_local_alloc_failure ⟨[], false, [], fun _ => 0, none⟩
      ⟨⟨true, [], wTables⟩, 0⟩ [] false false (Or.inl rfl)).2 3).trans rfl⟩

/-- C6: `rebind_symbols` returns 0 when both allocations succeed and a
negative value exactly when either allocation fails; in the failure case
the whole world — in particular the global registry head — is untouched
and no image is walked. -/
theorem register_global_alloc (w : World) (rbs : List Rebinding)
    (alloc1 alloc2 : Bool) :
    ((alloc1 = true ∧ alloc2 = true) →
        (rebind_symbols w rbs alloc1 alloc2).retval = 0) ∧
    ((alloc1 = false ∨ alloc2 = false) →
        (rebind_symbols w rbs alloc1 alloc2).retval < 0 ∧
        (rebind_symbols w rbs alloc1 alloc2).world = w ∧
        (rebind_symbols w rbs alloc1 alloc2).walked = []) := by
  constructor
  · rintro ⟨h1, h2⟩
    subst h1
    subst h2
    have hpr : prepend_rebindings w.rebindings_head rbs true true =
        (0, ⟨rbs⟩ :: w.rebindings_head) := rfl
    unfold rebind_symbols
    rw [hpr]
    dsimp only
    rw [if_neg (by omega : ¬ ((0 : Int) < 0))]
    split <;> rfl
  · intro h
    have hpr : prepend_rebindings w.rebindings_head rbs alloc1 alloc2 =
        (-1, w.rebindings_head) := by
      rcases h with h | h <;> subst h
      · rfl
      · cases alloc1 <;> rfl
    unfold rebind_symbols
    rw [hpr]
    dsimp only
    rw [if_pos (by omega : ((-1 : Int) < 0))]
    exact ⟨show (-1 : Int) < 0 by omega, rfl, rfl⟩

theorem register_global_alloc_witness :
    (rebind_symbols ⟨[], false, [], fun _ => 0, none⟩ [] true true).retval = 0 ∧
    (rebind_symbols ⟨[], false, [], fun _ => 0, none⟩ [] false true).retval < 0 :=
  ⟨(register_global_alloc ⟨[], false, [], fun _ => 0, none⟩ [] true true).1
      ⟨rfl, rfl⟩,
   ((register_global_alloc ⟨[], false, [], fun _ => 0, none⟩ [] false true).2
      (Or.inl rfl)).1⟩

/-- Spec-side test: the section type (flags masked by `SECTION_TYPE`) is
lazy or non-lazy symbol pointers. -/
def isPointerSection (s : SectionT) : Bool :=
  decide (s.flags &&& SECTION_TYPE = S_LAZY_SYMBOL_POINTERS) ||
    decide (s.flags &&& SECTION_TYPE = S_NON_LAZY_SYMBOL_POINTERS)

/-- Spec-side test: the segment is named `__DATA` or `__DATA_CONST`. -/
def isRebindSegment (seg : SegmentCommand) : Bool :=
  decide (seg.segname = SEG_DATA) || decide (seg.segname = SEG_DATA_CONST)

/-- The sections of one load command that the spec says are dispatched to
the Section Rewriter. -/
def dispatchedOfCommand (c : LoadCommand) : List SectionT :=
  match c with
  | .segment seg =>
    if isRebindSegment seg then seg.sections.filter isPointerSection else []
  | _ => []

/-- Spec-side description of the sections an image walk hands to the
Section Rewriter: sections of `__DATA`/`__DATA_CONST` segment commands
whose type is lazy or non-lazy symbol pointers, in load-command order. -/
def dispatchedSections (cmds : List LoadCommand) : List SectionT :=
  cmds.foldr (fun c acc => dispatchedOfCommand c ++ acc) []

/-- The byte addresses of the pointer slots of a section. -/
def slotAddrs (sec : SectionT) (slide : Nat) : List Nat :=
  (List.range (sec.size / wordSize)).map (slotAddr sec slide)

/-- The addresses of every non-null `replaced` out-location registered in
a registry. -/
def replacedAddrs (registry : Registry) : List Nat :=
  (flatRebindings registry).filterMap (fun r => r.replaced)

theorem processSlot_frame (registry : Registry) (t : ImageTables)
    (sec : SectionT) (slide : Nat) (mem : Nat → Nat) (i : Nat) (a : Nat)
    (h1 : a ≠ slotAddr sec slide i) (h2 : a ∉ replacedAddrs registry) :
    processSlot registry t sec slide mem i a = mem a := by
  unfold processSlot
  cases hs : isSentinel (t.indirect_symtab (sec.reserved1 + i))
  · simp only [hs, Bool.false_eq_true, if_false]
    cases hf : (flatRebindings registry).find? (rebindingMatches t.strtab
        (t.symtab (t.indirect_symtab (sec.reserved1 + i)))) with
    | none => rfl
    | some r =>
      have hr : r ∈ flatRebindings registry := List.mem_of_find?_eq_some hf
      have hap : ∀ p, r.replaced = some p → a ≠ p := by
        intro p hrep hEq
        apply h2
        rw [hEq]
        exact List.mem_filterMap.mpr ⟨r, hr, hrep⟩
      cases hrep : r.replaced with
      | none => simp [h1, hrep]
      | some p =>
        by_cases hv : mem (slotAddr sec slide i) ≠ r.replacement
        · simp [h1, hv, hrep, hap p hrep]
        · simp [h1, hv, hrep]
  · simp [hs]

theorem foldl_processSlot_frame (l : List Nat) (registry : Registry)
    (t : ImageTables) (sec : SectionT) (slide : Nat) (mem : Nat → Nat) (a : Nat)
    (h1 : ∀ i ∈ l, a ≠ slotAddr sec slide i) (h2 : a ∉ replacedAddrs registry) :
    (l.foldl (processSlot registry t sec slide) mem) a = mem a := by
  induction l generalizing mem with
  | nil => rfl
  | cons i is ih =>
    rw [List.foldl_cons]
    rw [ih _ (fun j hj => h1 j (by simp [hj]))]
    exact processSlot_frame registry t sec slide mem i a (h1 i (by simp)) h2

theorem perform_frame (registry : Registry) (sec : SectionT) (slide : Nat)
    (t : ImageTables) (vmQuery : Option Nat) (mem : Nat → Nat) (a : Nat)
    (h1 : a ∉ slotAddrs sec slide) (h2 : a ∉ replacedAddrs registry) :
    (perform_rebinding_with_section registry sec slide t vmQuery mem).1 a = mem a := by
  unfold perform_rebinding_with_section
  dsimp only
  apply foldl_processSlot_frame
  · intro i hi hEq
    apply h1
    unfold slotAddrs
    exact List.mem_map.mpr ⟨i, hi, hEq.symm⟩
  · exact h2

theorem walkSection_performed (registry : Registry) (t : ImageTables)
    (slide : Nat) (vmQuery : Option Nat) (acc : WalkOut) (sect : SectionT) :
    (walkSection registry t slide vmQuery acc sect).performed =
      acc.performed ++ (if isPointerSection sect then [sect] else []) := by
  unfold walkSection
  by_cases hc : sect.flags &&& SECTION_TYPE = S_LAZY_SYMBOL_POINTERS ∨
      sect.flags &&& SECTION_TYPE = S_NON_LAZY_SYMBOL_POINTERS
  · have hb : isPointerSection sect = true := by
      unfold isPointerSection
      rcases hc with hc | hc <;> simp [hc]
    simp [hc, hb]
  · have hb : isPointerSection sect = false := by
      unfold isPointerSection
      simp only [not_or] at hc
      simp [hc.1, hc.2]
    simp [hc, hb]

theorem walkSection_mem (registry : Registry) (t : ImageTables) (slide : Nat)
    (vmQuery : Option Nat) (acc : WalkOut) (sect : SectionT) (a : Nat)
    (hframe : isPointerSection sect = true → a ∉ slotAddrs sect slide)
    (h2 : a ∉ replacedAddrs registry) :
    (walkSection registry t slide vmQuery acc sect).mem a = acc.mem a := by
  unfold walkSection
  by_cases hc : sect.flags &&& SECTION_TYPE = S_LAZY_SYMBOL_POINTERS ∨
      sect.flags &&& SECTION_TYPE = S_NON_LAZY_SYMBOL_POINTERS
  · have hb : isPointerSection sect = true := by
      unfold isPointerSection
      rcases hc with hc | hc <;> simp [hc]
    simp only [hc, if_true, ite_true]
    simpa using perform_frame registry sect slide t vmQuery acc.mem a (hframe hb) h2
  · simp [hc]

theorem foldl_walkSection_performed (sects : List SectionT) (registry : Registry)
    (t : ImageTables) (slide : Nat) (vmQuery : Option Nat) (acc : WalkOut) :
    (sects.foldl (walkSection registry t slide vmQuery) acc).performed =
      acc.performed ++ sects.filter isPointerSection := by
  induction sects generalizing acc with
  | nil => simp
  | cons s ss ih =>
    rw [List.foldl_cons, ih, walkSection_performed, List.filter_cons]
    by_cases hb : isPointerSection s = true <;> simp [hb]

theorem foldl_walkSection_mem (sects : List SectionT) (registry : Registry)
    (t : ImageTables) (slide : Nat) (vmQuery : Option Nat) (acc : WalkOut) (a : Nat)
    (hframe : ∀ s ∈ sects, isPointerSection s = true → a ∉ slotAddrs s slide)
    (h2 : a ∉ replacedAddrs registry) :
    (sects.foldl (walkSection registry t slide vmQuery) acc).mem a = acc.mem a := by
  induction sects generalizing acc with
  | nil => rfl
  | cons s ss ih =>
    rw [List.foldl_cons]
    rw [ih _ (fun s' hs' => hframe s' (by simp [hs']))]
    exact walkSection_mem registry t slide vmQuery acc s a (hframe s (by simp)) h2

theorem walkCommand_performed (registry : Registry) (t : ImageTables)
    (slide : Nat) (vmQuery : Option Nat) (acc : WalkOut) (c : LoadCommand) :
    (walkCommand registry t slide vmQuery acc c).performed =
      acc.performed ++ dispatchedOfCommand c := by
  cases c with
  | segment seg =>
    unfold walkCommand dispatchedOfCommand
    by_cases hname : seg.segname ≠ SEG_DATA ∧ seg.segname ≠ SEG_DATA_CONST
    · have hb : isRebindSegment seg = false := by
        unfold isRebindSegment
        simp [hname.1, hname.2]
      simp [hname, hb]
    · have hor : seg.segname = SEG_DATA ∨ seg.segname = SEG_DATA_CONST := by
        rcases not_and_or.mp hname with h | h
        · exact Or.inl (not_not.mp h)
        · exact Or.inr (not_not.mp h)
      have hb : isRebindSegment seg = true := by
        unfold isRebindSegment
        rcases hor with h | h <;> simp [h]
      simp only [hname, if_false, ite_false, hb, if_true, ite_true]
      exact foldl_walkSection_performed seg.sections registry t slide vmQuery acc
  | symtab s => simp [walkCommand, dispatchedOfCommand]
  | dysymtab d => simp [walkCommand, dispatchedOfCommand]
  | other => simp [walkCommand, dispatchedOfCommand]

theorem walkCommand_mem (registry : Registry) (t : ImageTables) (slide : Nat)
    (vmQuery : Option Nat) (acc : WalkOut) (c : LoadCommand) (a : Nat)
    (hframe : ∀ s ∈ dispatchedOfCommand c, a ∉ slotAddrs s slide)
    (h2 : a ∉ replacedAddrs registry) :
    (walkCommand registry t slide vmQuery acc c).mem a = acc.mem a := by
  cases c with
  | segment seg =>
    unfold walkCommand
    by_cases hname : seg.segname ≠ SEG_DATA ∧ seg.segname ≠ SEG_DATA_CONST
    · simp [hname]
    · have hor : seg.segname = SEG_DATA ∨ seg.segname = SEG_DATA_CONST := by
        rcases not_and_or.mp hname with h | h
        · exact Or.inl (not_not.mp h)
        · exact Or.inr (not_not.mp h)
      have hb : isRebindSegment seg = true := by
        unfold isRebindSegment
        rcases hor with h | h <;> simp [h]
      simp only [hname, if_false, ite_false]
      apply foldl_walkSection_mem seg.sections registry t slide vmQuery acc a _ h2
      intro s hs hps
      apply hframe
      simp [dispatchedOfCommand, hb, List.mem_filter, hs, hps]
  | symtab s => rfl
  | dysymtab d => rfl
  | other => rfl

theorem dispatchedSections_cons (c : LoadCommand) (cs : List LoadCommand) :
    dispatchedSections (c :: cs) = dispatchedOfCommand c ++ dispatchedSections cs := rfl

theorem foldl_walkCommand_performed (cmds : List LoadCommand) (registry : Registry)
    (t : ImageTables) (slide : Nat) (vmQuery : Option Nat) (acc : WalkOut) :
    (cmds.foldl (walkCommand registry t slide vmQuery) acc).performed =
      acc.performed ++ dispatchedSections cmds := by
  induction cmds generalizing acc with
  | nil => simp [dispatchedSections]
  | cons c cs ih =>
    rw [List.foldl_cons, ih, walkCommand_performed, dispatchedSections_cons,
      List.append_assoc]

theorem foldl_walkCommand_mem (cmds : List LoadCommand) (registry : Registry)
    (t : ImageTables) (slide : Nat) (vmQuery : Option Nat) (acc : WalkOut) (a : Nat)
    (hframe : ∀ s ∈ dispatchedSections cmds, a ∉ slotAddrs s slide)
    (h2 : a ∉ replacedAddrs registry) :
    (cmds.foldl (walkCommand registry t slide vmQuery) acc).mem a = acc.mem a := by
  induction cmds generalizing acc with
  | nil => rfl
  | cons c cs ih =>
    rw [List.foldl_cons]
    rw [ih _ (fun s hs => hframe s (by
      rw [dispatchedSections_cons]
      exact List.mem_append.mpr (Or.inr hs)))]
    exact walkCommand_mem registry t slide vmQuery acc c a
      (fun s hs => hframe s (by
        rw [dispatchedSections_cons]
        exact List.mem_append.mpr (Or.inl hs))) h2

/-- C5: when an image walk proceeds (resolver succeeds, all three
metadata commands found, non-zero indirect symbols), the Section Rewriter
is invoked exactly on the sections lying in `__DATA`/`__DATA_CONST`
segment commands whose masked type is lazy or non-lazy symbol pointers, in
order; and every address outside the slot ranges of those dispatched
sections (and outside the registered out-locations) is unchanged, so other
sections' contents are untouched. -/
theorem section_selectivity (registry : Registry) (img : MachImage)
    (slide : Nat) (vmQuery : Option Nat) (mem : Nat → Nat)
    (st : SymtabCommand) (dy : DysymtabCommand) (le : SegmentCommand)
    (hok : img.dladdrOk = true)
    (hst : (scanLoadCommands img.commands).symtab_cmd = some st)
    (hdy : (scanLoadCommands img.commands).dysymtab_cmd = some dy)
    (hle : (scanLoadCommands img.commands).linkedit_segment = some le)
    (hnz : dy.nindirectsyms ≠ 0) :
    (rebind_symbols_for_image registry img slide vmQuery mem).performed =
      dispatchedSections img.commands ∧
    ∀ a, (∀ s ∈ dispatchedSections img.commands, a ∉ slotAddrs s slide) →
      a ∉ replacedAddrs registry →
      (rebind_symbols_for_image registry img slide vmQuery mem).mem a = mem a := by
  have hwalk : rebind_symbols_for_image registry img slide vmQuery mem =
      img.commands.foldl (walkCommand registry img.tables slide vmQuery)
        ⟨mem, [], []⟩ := by
    unfold rebind_symbols_for_image
    rw [hok]
    simp only [hst, hdy, hle, Bool.not_true, Bool.false_eq_true, if_false]
    rw [if_neg hnz]
  constructor
  · rw [hwalk]
    simpa using foldl_walkCommand_performed img.commands registry img.tables
      slide vmQuery ⟨mem, [], []⟩
  · intro a hfr h2
    rw [hwalk]
    exact foldl_walkCommand_mem img.commands registry img.tables slide vmQuery
      ⟨mem, [], []⟩ a hfr h2

/-- A concrete image with `__LINKEDIT`, symtab and dysymtab commands, one
dispatched pointer section, one non-pointer `__DATA` section, and a
pointer-typed section outside `__DATA`/`__DATA_CONST`. -/
def wImage : MachImage :=
  ⟨true,
   [LoadCommand.segment ⟨("__LINKEDIT").toList, 0, 0, []⟩,
    LoadCommand.symtab ⟨0, 0⟩,
    LoadCommand.dysymtab ⟨0, 3⟩,
    LoadCommand.segment ⟨("__DATA").toList, 0, 0,
      [wSection, ⟨("__DATA").toList, 64, 16, 0, 0⟩]⟩,
    LoadCommand.segment ⟨("__TEXT").toList, 0, 0,
      [⟨("__TEXT").toList, 128, 16, 0, 7⟩]⟩],
   wTables⟩

theorem section_selectivity_witness :
    (rebind_symbols_for_image [] wImage 0 none (fun _ => 0)).performed =
      dispatchedSections wImage.commands ∧
    (rebind_symbols_for_image [] wImage 0 none (fun _ => 0)).mem 999 = 0 :=
  ⟨(section_selectivity [] wImage 0 none (fun _ => 0) ⟨0, 0⟩ ⟨0, 3⟩
      ⟨("__LINKEDIT").toList, 0, 0, []⟩ rfl (by decide) (by decide) (by decide)
      (by decide)).1,
   ((section_selectivity [] wImage 0 none (fun _ => 0) ⟨0, 0⟩ ⟨0, 3⟩
      ⟨("__LINKEDIT").toList, 0, 0, []⟩ rfl (by decide) (by decide) (by decide)
      (by decide)).2 999 (by decide) (by decide)).trans rfl⟩

end Fishhook
